import Mathlib

/-!
Shallow embedding of the `sync-engine` repository (saostad/sync-engine).

The embedded code is the final `SyncEngine` class (src/unnamed/part_003):
`mapFields`, `getChanges` and `sync`, together with the earlier engine
version (src/unnamed/part_002) whose `getChanges` uses `_shallowEqual`
for object-typed values.

JavaScript runtime values are modelled by `Val`: scalars plus objects.
An object carries a numeric identity `oid` so that JavaScript strict
equality (`===`), which compares objects by reference, can be modelled:
two object values are strictly equal iff their identities coincide.
-/

namespace SyncEngine

/-- A scalar JavaScript value. -/
inductive Prim where
  | pNull
  | pUndefined
  | pBool (b : Bool)
  | pNum (n : Int)
  | pStr (s : String)
  deriving DecidableEq, Repr

/-- A JavaScript value: `null`, `undefined`, boolean, number (modelled as
an integer, sufficient for the engine's examples), string, or an object
with a reference identity and its own enumerable members in insertion
order.  The model allows one level of structure (object members are
scalars), which is the depth the engine's shallow comparison and the
repository's own examples exercise. -/
inductive Val where
  | vNull
  | vUndefined
  | vBool (b : Bool)
  | vNum (n : Int)
  | vStr (s : String)
  | vObj (oid : Nat) (members : List (String × Prim))
  deriving DecidableEq, Repr

/-- A record (a plain JavaScript object used as a row): field names to
values, in insertion order. -/
abbrev Rec : Type := List (String × Val)

/-- JavaScript strict equality `===` on scalar values: no coercion,
`null` and `undefined` distinct. -/
def primEq : Prim → Prim → Bool
  | .pNull, .pNull => true
  | .pUndefined, .pUndefined => true
  | .pBool a, .pBool b => a == b
  | .pNum a, .pNum b => a == b
  | .pStr a, .pStr b => a == b
  | _, _ => false

/-- JavaScript strict equality `===` on the modelled values.  Objects are
compared by reference identity; `null` and `undefined` are distinct; no
coercion happens. -/
def jsEq : Val → Val → Bool
  | .vNull, .vNull => true
  | .vUndefined, .vUndefined => true
  | .vBool a, .vBool b => a == b
  | .vNum a, .vNum b => a == b
  | .vStr a, .vStr b => a == b
  | .vObj i _, .vObj j _ => i == j
  | _, _ => false

/-- Property read `record[key]`: the first entry with the given name, or
`undefined` when absent (records built by the engine never hold duplicate
names, see `setField`). -/
def getField (r : Rec) (k : String) : Val :=
  match r.find? (fun p => p.1 == k) with
  | some p => p.2
  | none => .vUndefined

/-- Property write `record[key] = v`: updates the existing entry in place
(JavaScript keeps the original insertion position) or appends a new one. -/
def setField : Rec → String → Val → Rec
  | [], k, v => [(k, v)]
  | (k', v') :: rest, k, v =>
    if k' == k then (k, v) :: rest else (k', v') :: setField rest k v

/-- The string a value contributes inside `Array.prototype.join`:
`null` and `undefined` become the empty string, every other value is
converted with `String(·)`. -/
def joinStr : Val → String
  | .vNull => ""
  | .vUndefined => ""
  | .vBool b => if b then "true" else "false"
  | .vNum n => toString n
  | .vStr s => s
  | .vObj _ _ => "[object Object]"

/-- The key builder `this.keys.map((key) => record[key]).join("_")`: the composite key of
a record for a list of key field names. -/
def keyOf (keys : List String) (r : Rec) : String :=
  String.intercalate "_" (keys.map (fun k => joinStr (getField r k)))

/-- The source of one destination field in a mapping entry of the final
engine (part_003): either a direct copy of a named source field, or a
compute function over the whole source row.  A compute function may throw
(modelled by `Except`); awaiting of asynchronous functions is transparent
in this sequential model. -/
inductive MapSource where
  | srcField (name : String)
  | fn (f : Rec → Except String Val)

/-- One entry of the `mappings` array of the final engine (part_003):
destination field name, key marker, optional custom comparison, optional
insert/update override generators, and the value source. -/
structure Mapping where
  dstField : String
  isKey : Bool
  compareFn : Option (Rec → Rec → Bool)
  updateVal : Option (Rec → Val)
  insertVal : Option (Rec → Val)
  source : MapSource

/-- The derived key list `mappings.filter((m) => m.isKey).map((m) => m.dstField)` from the
constructor. -/
def keysOf (mappings : List Mapping) : List String :=
  (mappings.filter (fun m => m.isKey)).map (fun m => m.dstField)

/-- Evaluate one mapping entry on a source row: `srcRow[mapping.srcField]`
for a direct copy, otherwise `fn(srcRow)` (awaited when asynchronous). -/
def applyMapping (m : Mapping) (srcRow : Rec) : Except String Val :=
  match m.source with
  | .srcField name => .ok (getField srcRow name)
  | .fn f => f srcRow

/-- The inner loop of `mapFields`: builds `dstRow` by assigning
`dstRow[mapping.dstField]` for each mapping in declaration order; the
first throwing compute function aborts the row. -/
def mapRowGo (srcRow : Rec) : List Mapping → Rec → Except String Rec
  | [], acc => .ok acc
  | m :: ms, acc =>
    match applyMapping m srcRow with
    | .error e => .error e
    | .ok v => mapRowGo srcRow ms (setField acc m.dstField v)

/-- Projection of one source row into the destination shape. -/
def mapRow (mappings : List Mapping) (srcRow : Rec) : Except String Rec :=
  mapRowGo srcRow mappings []

/-- The method `SyncEngine.mapFields` (part_003): projects every source row in
order; the first failure aborts the whole call with no partial result. -/
def mapFields (mappings : List Mapping) : List Rec → Except String (List Rec)
  | [] => .ok []
  | r :: rs =>
    match mapRow mappings r with
    | .error e => .error e
    | .ok mr =>
      match mapFields mappings rs with
      | .error e => .error e
      | .ok mrs => .ok (mr :: mrs)

/-- A field delta reported in an `updated` entry. -/
structure Delta where
  fieldName : String
  oldValue : Val
  newValue : Val
  deriving DecidableEq, Repr

/-- An override entry `{fieldName, value}`. -/
structure Override where
  fieldName : String
  value : Val
  deriving DecidableEq, Repr

/-- An element of the `inserted` list: the mapped row plus the optional
override list (`undefined` when no override applies). -/
structure InsertedEntry where
  row : Rec
  overrides : Option (List Override)
  deriving DecidableEq, Repr

/-- An element of the `updated` list. -/
structure UpdatedEntry where
  row : Rec
  overrides : Option (List Override)
  fields : List Delta
  deriving DecidableEq, Repr

/-- The result of `getChanges`. -/
structure ChangeSet where
  inserted : List InsertedEntry
  deleted : List Rec
  updated : List UpdatedEntry
  deriving DecidableEq, Repr

/-- The lookup `this.mappings.find((m) => m.dstField === key)`. -/
def lookupMapping (mappings : List Mapping) (k : String) : Option Mapping :=
  mappings.find? (fun m => m.dstField == k)

/-- The lookup `this.mappings.find((m) => "compareFn" in m && m.dstField === key)?.compareFn`:
the first mapping that carries a compare function for this field. -/
def compareLookup (mappings : List Mapping) (k : String) :
    Option (Rec → Rec → Bool) :=
  (mappings.find? (fun m => m.compareFn.isSome && m.dstField == k)).bind
    (fun m => m.compareFn)

/-- Whether the update loop reports field `k` (holding `v` in the mapped
row) as changed: a declared compare function returning `false` means
"differs", otherwise strict inequality `dstRecord[key] !== srcValue`. -/
def fieldDiffers (mappings : List Mapping) (k : String) (v : Val)
    (srcR dstR : Rec) : Bool :=
  match compareLookup mappings k with
  | some cf => !(cf srcR dstR)
  | none => !(jsEq (getField dstR k) v)

/-- The delta list collected over `Object.entries(srcRecord)` for one
matched pair. -/
def fieldDeltas (mappings : List Mapping) (srcR dstR : Rec) : List Delta :=
  srcR.filterMap (fun p =>
    if fieldDiffers mappings p.1 p.2 srcR dstR then
      some ⟨p.1, getField dstR p.1, p.2⟩
    else none)

/-- The override list collected for an inserted row: for each entry of the
mapped row, the first mapping for that field, when it declares
`insertVal`, contributes `{fieldName, insertVal(srcRecord)}`. -/
def insertOverrides (mappings : List Mapping) (r : Rec) : List Override :=
  r.filterMap (fun p =>
    match (lookupMapping mappings p.1).bind (fun m => m.insertVal) with
    | some f => some ⟨p.1, f r⟩
    | none => none)

/-- The override list collected for an updated row via `updateVal`. -/
def updateOverrides (mappings : List Mapping) (r : Rec) : List Override :=
  r.filterMap (fun p =>
    match (lookupMapping mappings p.1).bind (fun m => m.updateVal) with
    | some f => some ⟨p.1, f r⟩
    | none => none)

/-- The deleted loop of `getChanges`: destination records whose key does
not occur among the mapped records' keys, in destination order. -/
def deletedOf (keys : List String) (mapped dst : List Rec) : List Rec :=
  dst.filter (fun d => !(mapped.any (fun s => keyOf keys s == keyOf keys d)))

/-- The inserted loop of `getChanges`: mapped records whose key does not
occur among the destination records' keys, in mapped order, each with its
insert overrides (`undefined` when the list is empty). -/
def insertedOf (mappings : List Mapping) (keys : List String)
    (mapped dst : List Rec) : List InsertedEntry :=
  (mapped.filter (fun s => !(dst.any (fun d => keyOf keys d == keyOf keys s)))).map
    (fun s =>
      let ov := insertOverrides mappings s
      ⟨s, if ov.length > 0 then some ov else none⟩)

/-- The body of one iteration of the updated loop: the first destination
record with an equal key, the collected deltas and overrides, and the
emission guard `fields.length > 0 || (fields.length > 0 && overrides.length > 0)`
exactly as written in the source. -/
def updEntry (mappings : List Mapping) (keys : List String) (dst : List Rec)
    (s : Rec) : Option UpdatedEntry :=
  match dst.find? (fun d => keyOf keys d == keyOf keys s) with
  | none => none
  | some d =>
    let fs := fieldDeltas mappings s d
    let ov := updateOverrides mappings s
    if fs.length > 0 ∨ (fs.length > 0 ∧ ov.length > 0) then
      some ⟨s, if ov.length > 0 then some ov else none, fs⟩
    else none

/-- The updated loop of `getChanges`, in mapped order. -/
def updatedOf (mappings : List Mapping) (keys : List String)
    (mapped dst : List Rec) : List UpdatedEntry :=
  mapped.filterMap (updEntry mappings keys dst)

/-- The method `SyncEngine.getChanges` (part_003): project the source, then run the
three loops; a mapping failure aborts the whole call. -/
def getChanges (mappings : List Mapping) (src dst : List Rec) :
    Except String ChangeSet :=
  match mapFields mappings src with
  | .error e => .error e
  | .ok mapped =>
    .ok ⟨insertedOf mappings (keysOf mappings) mapped dst,
         deletedOf (keysOf mappings) mapped dst,
         updatedOf mappings (keysOf mappings) mapped dst⟩

/-- The optional effect callbacks supplied at construction
(`syncFns.insertFn/deleteFn/updateFn`).  Callbacks are modelled as pure
result-producing functions; asynchronous completion is transparent, the
engine collects results positionally via `Promise.all`. -/
structure SyncFns where
  insertFn : Option (Rec → Val)
  deleteFn : Option (Rec → Val)
  updateFn : Option (Rec → List Delta → Val)

/-- The spread copy of the row followed by the override assignments
`finalRow[fieldName] = value` performed by the insert branch of `sync`. -/
def mergeOverrides (r : Rec) (ovs : List Override) : Rec :=
  ovs.foldl (fun acc o => setField acc o.fieldName o.value) r

/-- The result object of `sync`. -/
structure SyncResult where
  inserts : Option (List Val)
  deletes : Option (List Val)
  updates : Option (List Val)
  deriving DecidableEq, Repr

/-- The three callback blocks of `sync` applied to a change set: a slot
stays `null` when no callback was supplied; each block builds the list of
per-record calls and assigns `Promise.all`'s positional results only when
`funcs.length > 0`. -/
def syncApply (fns : SyncFns) (cs : ChangeSet) : SyncResult :=
  { inserts :=
      match fns.insertFn with
      | none => none
      | some f =>
        let rs := cs.inserted.map
          (fun e => f (mergeOverrides e.row (e.overrides.getD [])))
        if rs.length > 0 then some rs else none
    deletes :=
      match fns.deleteFn with
      | none => none
      | some f =>
        let rs := cs.deleted.map f
        if rs.length > 0 then some rs else none
    updates :=
      match fns.updateFn with
      | none => none
      | some f =>
        let rs := cs.updated.map (fun u => f u.row u.fields)
        if rs.length > 0 then some rs else none }

/-- The method `SyncEngine.sync` (part_003): compute the change set, then run the
insert, delete and update blocks in that order. -/
def sync (mappings : List Mapping) (src dst : List Rec) (fns : SyncFns) :
    Except String SyncResult :=
  match getChanges mappings src dst with
  | .error e => .error e
  | .ok cs => .ok (syncApply fns cs)

/-- One callback invocation observed during `sync`, used to reason about
the order in which the three categories execute. -/
inductive SyncEv where
  | ins (row : Rec)
  | del (row : Rec)
  | upd (row : Rec) (fields : List Delta)
  deriving DecidableEq, Repr

/-- Returns `true` exactly on insert events. -/
def SyncEv.isIns : SyncEv → Bool
  | .ins _ => true
  | _ => false

/-- Returns `true` exactly on delete events. -/
def SyncEv.isDel : SyncEv → Bool
  | .del _ => true
  | _ => false

/-- Returns `true` exactly on update events. -/
def SyncEv.isUpd : SyncEv → Bool
  | .upd _ _ => true
  | _ => false

/-- The insert-callback invocations of `sync`, in inserted-list order
(empty when no insert callback was supplied). -/
def insertTrace (fns : SyncFns) (cs : ChangeSet) : List SyncEv :=
  match fns.insertFn with
  | none => []
  | some _ =>
    cs.inserted.map (fun e => .ins (mergeOverrides e.row (e.overrides.getD [])))

/-- The delete-callback invocations of `sync`, in deleted-list order. -/
def deleteTrace (fns : SyncFns) (cs : ChangeSet) : List SyncEv :=
  match fns.deleteFn with
  | none => []
  | some _ => cs.deleted.map (fun d => .del d)

/-- The update-callback invocations of `sync`, in updated-list order. -/
def updateTrace (fns : SyncFns) (cs : ChangeSet) : List SyncEv :=
  match fns.updateFn with
  | none => []
  | some _ => cs.updated.map (fun u => .upd u.row u.fields)

/-- The callback invocations of one `sync` call in execution order: the
insert block is launched and jointly awaited (`await Promise.all`) before
the delete block starts, and the delete block before the update block —
the `await` barrier between the three blocks in the source makes the
categories non-overlapping. -/
def syncTrace (fns : SyncFns) (cs : ChangeSet) : List SyncEv :=
  insertTrace fns cs ++ deleteTrace fns cs ++ updateTrace fns cs

end SyncEngine

namespace SyncEngineV2

open SyncEngine

/-!
The earlier engine version (src/unnamed/part_002): `getChanges` with the
same deleted/inserted loops (plain rows, no overrides) and an update loop
whose default comparison falls back to `_shallowEqual` for object-typed
values.  The key list is a separate constructor argument.
-/

/-- The test `typeof v === "object"` — true for objects and for `null`. -/
def typeofObj : Val → Bool
  | .vNull => true
  | .vObj _ _ => true
  | _ => false

/-- The own enumerable entries `for (let key in src)` iterates: an
object's members, nothing for `null` (and the guard in `_shallowEqual`
keeps every other shape out). -/
def objMembers : Val → List (String × Prim)
  | .vObj _ ms => ms
  | _ => []

/-- Member read `v[key]` on an object, `undefined` when absent.  (In
JavaScript a member read on `null` throws; this total model returns
`undefined` there, a case no theorem below evaluates: `_shallowEqual`
only reads members of `dst` for keys of `src`, and when `src` is `null`
there are none.) -/
def objMember (v : Val) (k : String) : Prim :=
  match (objMembers v).find? (fun p => p.1 == k) with
  | some p => p.2
  | none => .pUndefined

/-- The method `SyncEngine._shallowEqual` (part_002): `false` unless both values are
object-typed, otherwise every own member of `src` must be strictly equal
to the same-named member of `dst` (one level deep, never recursive). -/
def shallowEqual (src dst : Val) : Bool :=
  if typeofObj src && typeofObj dst then
    (objMembers src).all (fun p => primEq p.2 (objMember dst p.1))
  else false

/-- The default comparison of the part_002 update loop for field `k`
holding `v` in the mapped row: strictly different, and for object-typed
values not shallow-equal either. -/
def fieldDiffers2 (k : String) (v : Val) (dstR : Rec) : Bool :=
  if jsEq (getField dstR k) v then false
  else if typeofObj v then !(shallowEqual v (getField dstR k))
  else true

/-- The delta list of the part_002 update loop for one matched pair. -/
def fieldDeltas2 (srcR dstR : Rec) : List Delta :=
  srcR.filterMap (fun p =>
    if fieldDiffers2 p.1 p.2 dstR then
      some ⟨p.1, getField dstR p.1, p.2⟩
    else none)

/-- An element of the part_002 `updated` list. -/
structure UpdatedEntry2 where
  row : Rec
  fields : List Delta
  deriving DecidableEq, Repr

/-- One iteration of the part_002 update loop. -/
def updEntry2 (keys : List String) (dst : List Rec) (s : Rec) :
    Option UpdatedEntry2 :=
  match dst.find? (fun d => keyOf keys d == keyOf keys s) with
  | none => none
  | some d =>
    let fs := fieldDeltas2 s d
    if fs.length > 0 then some ⟨s, fs⟩ else none

/-- The part_002 updated loop over the mapped data. -/
def updatedOf2 (keys : List String) (mapped dst : List Rec) :
    List UpdatedEntry2 :=
  mapped.filterMap (updEntry2 keys dst)

end SyncEngineV2

namespace SyncEngine

/-!
Concrete configurations used to exercise the theorems, taken from the
repository's README worked example (source rows 1/2/4, destination rows
1/3/4, key `["id"]`, `FullName` computed from first and last name).
-/

/-- The README example's mapping list, in the part_003 mapping shape. -/
def demoMappings : List Mapping :=
  [⟨"FullName", false, none, none, none,
    .fn (fun r => .ok (.vStr (joinStr (getField r "firstName") ++ " " ++
      joinStr (getField r "lastName"))))⟩,
   ⟨"id", true, none, none, none, .srcField "id"⟩]

/-- The README example's source rows. -/
def demoSrc : List Rec :=
  [[("id", .vNum 1), ("firstName", .vStr "John"), ("lastName", .vStr "Doe")],
   [("id", .vNum 2), ("firstName", .vStr "Jane"), ("lastName", .vStr "Diana")],
   [("id", .vNum 4), ("firstName", .vStr "Rid"), ("lastName", .vStr "Lomba")]]

/-- The README example's destination rows. -/
def demoDst : List Rec :=
  [[("id", .vNum 1), ("FullName", .vStr "John Doe")],
   [("id", .vNum 3), ("FullName", .vStr "Doe Risko")],
   [("id", .vNum 4), ("FullName", .vStr "Fids Almo")]]

/-- The mapped dataset the README example produces. -/
def demoMapped : List Rec :=
  [[("FullName", .vStr "John Doe"), ("id", .vNum 1)],
   [("FullName", .vStr "Jane Diana"), ("id", .vNum 2)],
   [("FullName", .vStr "Rid Lomba"), ("id", .vNum 4)]]

/-- The change set the README example produces. -/
def demoChanges : ChangeSet :=
  ⟨[⟨[("FullName", .vStr "Jane Diana"), ("id", .vNum 2)], none⟩],
   [[("id", .vNum 3), ("FullName", .vStr "Doe Risko")]],
   [⟨[("FullName", .vStr "Rid Lomba"), ("id", .vNum 4)], none,
     [⟨"FullName", .vStr "Fids Almo", .vStr "Rid Lomba"⟩]⟩]⟩

/-- Callbacks returning each record's `id`, as in the README example. -/
def demoFns : SyncFns :=
  ⟨some (fun r => getField r "id"),
   some (fun r => getField r "id"),
   some (fun r _ => getField r "id")⟩

/-- A configuration whose source and destination already agree: key field
`id` plus a copied `name` field. -/
def noopMappings : List Mapping :=
  [⟨"id", true, none, none, none, .srcField "id"⟩,
   ⟨"name", false, none, none, none, .srcField "name"⟩]

/-- Single source row `{id: 1, name: "a"}`. -/
def noopSrc : List Rec := [[("id", .vNum 1), ("name", .vStr "a")]]

/-- Destination equal to the mapped source. -/
def noopDst : List Rec := [[("id", .vNum 1), ("name", .vStr "a")]]

/-- A configuration whose `bio` field is a freshly computed object
(identity 1) with the same single member as the destination's `bio`
object (identity 2); no compare function is declared for `bio`. -/
def nestedMappings : List Mapping :=
  [⟨"id", true, none, none, none, .srcField "id"⟩,
   ⟨"bio", false, none, none, none,
    .fn (fun _ => .ok (.vObj 1 [("age", .pNum 30)]))⟩]

/-- Single source row `{id: 1}` for the nested-object configuration. -/
def nestedSrc : List Rec := [[("id", .vNum 1)]]

/-- Destination row whose `bio` object has the same members but a
different identity than the mapped one. -/
def nestedDst : List Rec :=
  [[("id", .vNum 1), ("bio", .vObj 2 [("age", .pNum 30)])]]

/-- Two mapping entries that agree on everything `getChanges` uses for
matching and diffing, and may differ only in their `insertVal` and
`updateVal` override generators. -/
def sameModuloOverrides (m1 m2 : Mapping) : Prop :=
  m1.dstField = m2.dstField ∧ m1.isKey = m2.isKey ∧
  m1.compareFn = m2.compareFn ∧ m1.source = m2.source

/-- The README example's mappings with `insertVal`/`updateVal` override
generators added to `FullName` (returning the row's `id`), otherwise
identical to `demoMappings`. -/
def demoMappingsOv : List Mapping :=
  [⟨"FullName", false, none, some (fun r => getField r "id"),
    some (fun r => getField r "id"),
    .fn (fun r => .ok (.vStr (joinStr (getField r "firstName") ++ " " ++
      joinStr (getField r "lastName"))))⟩,
   ⟨"id", true, none, none, none, .srcField "id"⟩]

/-- A mapping whose compute function always throws. -/
def failMapping : Mapping :=
  ⟨"x", false, none, none, none, .fn (fun _ => .error "boom")⟩

/-- A mapping list containing the throwing mapping. -/
def failMappings : List Mapping := [failMapping]

/-- A single (empty) source row to project. -/
def failSrc : List Rec := [([] : Rec)]

/-- The destination dataset agrees with itself field-by-field under the
applicable comparison: for every row, every field of the row compares
equal (no `fieldDiffers`) against the first row of the dataset carrying
the same composite key. -/
def selfClean (mappings : List Mapping) (dst : List Rec) : Bool :=
  dst.all (fun r =>
    ((dst.find? (fun x =>
        keyOf (keysOf mappings) x == keyOf (keysOf mappings) r)).all
      (fun d => r.all (fun p => !(fieldDiffers mappings p.1 p.2 r d)))))

end SyncEngine

open SyncEngine

theorem getChanges_ok {mappings : List Mapping} {src : List Rec}
    (dst : List Rec) {mapped : List Rec}
    (hm : mapFields mappings src = .ok mapped) :
    getChanges mappings src dst =
      .ok ⟨insertedOf mappings (keysOf mappings) mapped dst,
           deletedOf (keysOf mappings) mapped dst,
           updatedOf mappings (keysOf mappings) mapped dst⟩ := by
  unfold getChanges
  rw [hm]

theorem mem_deletedOf {keys : List String} {mapped dst : List Rec} {d : Rec} :
    d ∈ deletedOf keys mapped dst ↔
      d ∈ dst ∧ ∀ s ∈ mapped, keyOf keys s ≠ keyOf keys d := by
  simp [deletedOf, List.mem_filter, List.any_eq_true]

theorem insertedOf_map_row (mappings : List Mapping) (keys : List String)
    (mapped dst : List Rec) :
    (insertedOf mappings keys mapped dst).map (fun e => e.row) =
      mapped.filter (fun s => !(dst.any (fun d => keyOf keys d == keyOf keys s))) := by
  unfold insertedOf
  rw [List.map_map]
  exact List.map_id _

theorem mem_insertedOf_row {mappings : List Mapping} {keys : List String}
    {mapped dst : List Rec} {s : Rec} :
    s ∈ (insertedOf mappings keys mapped dst).map (fun e => e.row) ↔
      s ∈ mapped ∧ ∀ d ∈ dst, keyOf keys d ≠ keyOf keys s := by
  rw [insertedOf_map_row]
  simp [List.mem_filter, List.any_eq_true]

theorem updEntry_eq_some {mappings : List Mapping} {keys : List String}
    {dst : List Rec} {s : Rec} {u : UpdatedEntry} :
    updEntry mappings keys dst s = some u ↔
      ∃ d, dst.find? (fun r => keyOf keys r == keyOf keys s) = some d ∧
        fieldDeltas mappings s d ≠ [] ∧
        u = ⟨s,
          (if (updateOverrides mappings s).length > 0 then
            some (updateOverrides mappings s) else none),
          fieldDeltas mappings s d⟩ := by
  unfold updEntry
  cases hfind : dst.find? (fun r => keyOf keys r == keyOf keys s) with
  | none => simp
  | some d =>
    simp only [Option.some.injEq]
    constructor
    · intro h
      by_cases hfs : (fieldDeltas mappings s d).length > 0
      · refine ⟨d, rfl, ?_, ?_⟩
        · intro hnil
          rw [hnil] at hfs
          simp at hfs
        · rw [if_pos (Or.inl hfs)] at h
          exact (Option.some.injEq _ _).mp h |>.symm
      · rw [if_neg (by tauto)] at h
        exact absurd h (by simp)
    · rintro ⟨d', hd', hnil, hu⟩
      have hdd : d' = d := hd'.symm
      subst hdd
      have hfs : (fieldDeltas mappings s d').length > 0 :=
        List.length_pos.mpr hnil
      rw [if_pos (Or.inl hfs), hu]

theorem mem_updatedOf {mappings : List Mapping} {keys : List String}
    {mapped dst : List Rec} {u : UpdatedEntry} :
    u ∈ updatedOf mappings keys mapped dst ↔
      ∃ s, s ∈ mapped ∧ updEntry mappings keys dst s = some u := by
  unfold updatedOf
  exact List.mem_filterMap

theorem updatedOf_row_mem {mappings : List Mapping} {keys : List String}
    {mapped dst : List Rec} {u : UpdatedEntry}
    (h : u ∈ updatedOf mappings keys mapped dst) :
    u.row ∈ mapped ∧
      ∃ d ∈ dst, keyOf keys d = keyOf keys u.row := by
  obtain ⟨s, hs, hu⟩ := mem_updatedOf.mp h
  obtain ⟨d, hfind, _, hval⟩ := updEntry_eq_some.mp hu
  have hrow : u.row = s := by rw [hval]
  subst hrow
  refine ⟨hs, d, List.mem_of_find?_eq_some hfind, ?_⟩
  have := List.find?_some hfind
  simpa using this

/-- C1: `getChanges` classifies records by a composite key obtained by
joining each key field's value, coerced to a string, with the fixed
delimiter in field order (`keyOf`), records matching iff their key
strings are equal; `deleted` holds exactly the destination rows whose key
equals no mapped row's key, in destination iteration order (a sublist of
`dst`), and `inserted` holds exactly the mapped rows whose key equals no
destination row's key, in mapped iteration order. -/
theorem C1_key_classification (mappings : List Mapping)
    (src dst mapped : List Rec)
    (hm : mapFields mappings src = .ok mapped) :
    ∃ cs, getChanges mappings src dst = .ok cs ∧
      List.Sublist cs.deleted dst ∧
      (∀ d, d ∈ cs.deleted ↔ d ∈ dst ∧
        ∀ s ∈ mapped, keyOf (keysOf mappings) s ≠ keyOf (keysOf mappings) d) ∧
      List.Sublist (cs.inserted.map (fun e => e.row)) mapped ∧
      (∀ s, s ∈ cs.inserted.map (fun e => e.row) ↔ s ∈ mapped ∧
        ∀ d ∈ dst, keyOf (keysOf mappings) d ≠ keyOf (keysOf mappings) s) := by
  refine ⟨_, getChanges_ok dst hm, List.filter_sublist _,
    fun d => mem_deletedOf, ?_, fun s => mem_insertedOf_row⟩
  rw [insertedOf_map_row]
  exact List.filter_sublist _

/-- Closed instance of C1 on the README example configuration. -/
theorem C1_key_classification_witness :
    mapFields demoMappings demoSrc = .ok demoMapped ∧
    (∃ cs, getChanges demoMappings demoSrc demoDst = .ok cs ∧
      List.Sublist cs.deleted demoDst ∧
      (∀ d, d ∈ cs.deleted ↔ d ∈ demoDst ∧
        ∀ s ∈ demoMapped,
          keyOf (keysOf demoMappings) s ≠ keyOf (keysOf demoMappings) d) ∧
      List.Sublist (cs.inserted.map (fun e => e.row)) demoMapped ∧
      (∀ s, s ∈ cs.inserted.map (fun e => e.row) ↔ s ∈ demoMapped ∧
        ∀ d ∈ demoDst,
          keyOf (keysOf demoMappings) d ≠ keyOf (keysOf demoMappings) s)) :=
  ⟨by rfl, C1_key_classification demoMappings demoSrc demoDst demoMapped (by rfl)⟩

/-- C2: `getChanges` partitions both sides: every destination record is
either key-matched by some mapped record or in `deleted`, never both;
every mapped record is either key-matched by some destination record or
(as a row) in `inserted`, never both; no row is both inserted and
updated, and every updated row is key-matched by a destination record. -/
theorem C2_partition (mappings : List Mapping) (src dst mapped : List Rec)
    (cs : ChangeSet)
    (hm : mapFields mappings src = .ok mapped)
    (hc : getChanges mappings src dst = .ok cs) :
    (∀ d ∈ dst,
      ((∃ s ∈ mapped,
          keyOf (keysOf mappings) s = keyOf (keysOf mappings) d) ∨
        d ∈ cs.deleted) ∧
      ¬((∃ s ∈ mapped,
          keyOf (keysOf mappings) s = keyOf (keysOf mappings) d) ∧
        d ∈ cs.deleted)) ∧
    (∀ s ∈ mapped,
      ((∃ d ∈ dst,
          keyOf (keysOf mappings) d = keyOf (keysOf mappings) s) ∨
        s ∈ cs.inserted.map (fun e => e.row)) ∧
      ¬((∃ d ∈ dst,
          keyOf (keysOf mappings) d = keyOf (keysOf mappings) s) ∧
        s ∈ cs.inserted.map (fun e => e.row))) ∧
    (∀ e ∈ cs.inserted, ∀ u ∈ cs.updated, e.row ≠ u.row) ∧
    (∀ u ∈ cs.updated, ∃ d ∈ dst,
      keyOf (keysOf mappings) d = keyOf (keysOf mappings) u.row) := by
  rw [getChanges_ok dst hm] at hc
  obtain rfl : cs = ⟨insertedOf mappings (keysOf mappings) mapped dst,
      deletedOf (keysOf mappings) mapped dst,
      updatedOf mappings (keysOf mappings) mapped dst⟩ :=
    ((Option.some.injEq _ _).mp (congrArg Except.toOption hc)).symm
  refine ⟨?_, ?_, ?_, ?_⟩
  · intro d hd
    by_cases h : ∃ s ∈ mapped,
        keyOf (keysOf mappings) s = keyOf (keysOf mappings) d
    · refine ⟨Or.inl h, ?_⟩
      rintro ⟨⟨s, hs, hkey⟩, hdel⟩
      exact (mem_deletedOf.mp hdel).2 s hs hkey
    · push_neg at h
      exact ⟨Or.inr (mem_deletedOf.mpr ⟨hd, h⟩), fun hb => absurd hb.1 (by push_neg; exact h)⟩
  · intro s hs
    by_cases h : ∃ d ∈ dst,
        keyOf (keysOf mappings) d = keyOf (keysOf mappings) s
    · refine ⟨Or.inl h, ?_⟩
      rintro ⟨⟨d, hd, hkey⟩, hins⟩
      exact (mem_insertedOf_row.mp hins).2 d hd hkey
    · push_neg at h
      exact ⟨Or.inr (mem_insertedOf_row.mpr ⟨hs, h⟩),
        fun hb => absurd hb.1 (by push_neg; exact h)⟩
  · intro e he u hu heq
    have hrow : e.row ∈ (insertedOf mappings (keysOf mappings) mapped dst).map
        (fun e => e.row) := List.mem_map_of_mem _ he
    obtain ⟨-, d, hd, hkey⟩ := updatedOf_row_mem hu
    exact (mem_insertedOf_row.mp hrow).2 d hd (heq ▸ hkey)
  · intro u hu
    exact (updatedOf_row_mem hu).2

/-- Closed instance of C2 on the README example configuration. -/
theorem C2_partition_witness :
    (∀ d ∈ demoDst,
      ((∃ s ∈ demoMapped,
          keyOf (keysOf demoMappings) s = keyOf (keysOf demoMappings) d) ∨
        d ∈ demoChanges.deleted) ∧
      ¬((∃ s ∈ demoMapped,
          keyOf (keysOf demoMappings) s = keyOf (keysOf demoMappings) d) ∧
        d ∈ demoChanges.deleted)) ∧
    (∀ s ∈ demoMapped,
      ((∃ d ∈ demoDst,
          keyOf (keysOf demoMappings) d = keyOf (keysOf demoMappings) s) ∨
        s ∈ demoChanges.inserted.map (fun e => e.row)) ∧
      ¬((∃ d ∈ demoDst,
          keyOf (keysOf demoMappings) d = keyOf (keysOf demoMappings) s) ∧
        s ∈ demoChanges.inserted.map (fun e => e.row))) ∧
    (∀ e ∈ demoChanges.inserted, ∀ u ∈ demoChanges.updated, e.row ≠ u.row) ∧
    (∀ u ∈ demoChanges.updated, ∃ d ∈ demoDst,
      keyOf (keysOf demoMappings) d = keyOf (keysOf demoMappings) u.row) :=
  C2_partition demoMappings demoSrc demoDst demoMapped demoChanges
    (by rfl) (by rfl)

theorem mem_fieldDeltas {mappings : List Mapping} {s d : Rec} {dl : Delta} :
    dl ∈ fieldDeltas mappings s d ↔
      ∃ p ∈ s, fieldDiffers mappings p.1 p.2 s d = true ∧
        dl = ⟨p.1, getField d p.1, p.2⟩ := by
  unfold fieldDeltas
  rw [List.mem_filterMap]
  constructor
  · rintro ⟨p, hp, hsome⟩
    by_cases hdiff : fieldDiffers mappings p.1 p.2 s d = true
    · rw [if_pos hdiff] at hsome
      exact ⟨p, hp, hdiff, ((Option.some.injEq _ _).mp hsome).symm⟩
    · rw [if_neg hdiff] at hsome
      exact absurd hsome (by simp)
  · rintro ⟨p, hp, hdiff, rfl⟩
    exact ⟨p, hp, by rw [if_pos hdiff]⟩

theorem fieldDeltas_ne_nil {mappings : List Mapping} {s d : Rec}
    (p : String × Val) (hp : p ∈ s)
    (hdiff : fieldDiffers mappings p.1 p.2 s d = true) :
    fieldDeltas mappings s d ≠ [] := by
  intro hnil
  have : (⟨p.1, getField d p.1, p.2⟩ : Delta) ∈ fieldDeltas mappings s d :=
    mem_fieldDeltas.mpr ⟨p, hp, hdiff, rfl⟩
  rw [hnil] at this
  exact absurd this (List.not_mem_nil _)

/-- C3: for a mapped row whose key matches a destination row (the first
key-matching one in iteration order), an `updated` entry is emitted iff
at least one field differs under the applicable comparison (a declared
`compareFn` returning `false` means "differs", otherwise strict value
equality), and its `fields` list holds a delta `{fieldName, oldValue,
newValue}` for exactly the differing fields of the mapped row. -/
theorem C3_update_deltas (mappings : List Mapping)
    (src dst mapped : List Rec) (cs : ChangeSet) (s d : Rec)
    (hm : mapFields mappings src = .ok mapped)
    (hc : getChanges mappings src dst = .ok cs)
    (hs : s ∈ mapped)
    (hd : dst.find?
      (fun r => keyOf (keysOf mappings) r == keyOf (keysOf mappings) s) =
      some d) :
    ((∃ u ∈ cs.updated, u.row = s) ↔
      ∃ p ∈ s, fieldDiffers mappings p.1 p.2 s d = true) ∧
    (∀ u ∈ cs.updated, u.row = s →
      ∀ dl : Delta, dl ∈ u.fields ↔
        ∃ p ∈ s, p.1 = dl.fieldName ∧ p.2 = dl.newValue ∧
          dl.oldValue = getField d p.1 ∧
          fieldDiffers mappings p.1 p.2 s d = true) := by
  rw [getChanges_ok dst hm] at hc
  obtain rfl : cs = ⟨insertedOf mappings (keysOf mappings) mapped dst,
      deletedOf (keysOf mappings) mapped dst,
      updatedOf mappings (keysOf mappings) mapped dst⟩ :=
    ((Option.some.injEq _ _).mp (congrArg Except.toOption hc)).symm
  constructor
  · constructor
    · rintro ⟨u, hu, hrow⟩
      obtain ⟨s', hs', hent⟩ := mem_updatedOf.mp hu
      obtain ⟨d', hd', hnil, hval⟩ := updEntry_eq_some.mp hent
      have hss : s' = s := by rw [hval] at hrow; exact hrow
      subst hss
      rw [hd] at hd'
      obtain rfl : d' = d := ((Option.some.injEq _ _).mp hd'.symm)
      obtain ⟨dl, hdl⟩ := List.exists_mem_of_ne_nil _ hnil
      obtain ⟨p, hp, hdiff, -⟩ := mem_fieldDeltas.mp hdl
      exact ⟨p, hp, hdiff⟩
    · rintro ⟨p, hp, hdiff⟩
      refine ⟨⟨s,
        (if (updateOverrides mappings s).length > 0 then
          some (updateOverrides mappings s) else none),
        fieldDeltas mappings s d⟩, ?_, rfl⟩
      exact mem_updatedOf.mpr ⟨s, hs,
        updEntry_eq_some.mpr ⟨d, hd, fieldDeltas_ne_nil p hp hdiff, rfl⟩⟩
  · intro u hu hrow dl
    obtain ⟨s', hs', hent⟩ := mem_updatedOf.mp hu
    obtain ⟨d', hd', hnil, hval⟩ := updEntry_eq_some.mp hent
    have hss : s' = s := by rw [hval] at hrow; exact hrow
    rw [hss] at hd' hval
    have hdd : d' = d := by
      rw [hd] at hd'
      exact ((Option.some.injEq _ _).mp hd').symm
    rw [hdd] at hval
    have hfields : u.fields = fieldDeltas mappings s d := by rw [hval]
    rw [hfields, mem_fieldDeltas]
    constructor
    · rintro ⟨p, hp, hdiff, rfl⟩
      exact ⟨p, hp, rfl, rfl, rfl, hdiff⟩
    · rintro ⟨p, hp, hname, hnew, hold, hdiff⟩
      refine ⟨p, hp, hdiff, ?_⟩
      cases dl
      simp only at hname hnew hold
      subst hname
      subst hnew
      subst hold
      rfl

/-- Closed instance of C3 on the README example's matched pair (id 4). -/
theorem C3_update_deltas_witness :
    ((∃ u ∈ demoChanges.updated,
        u.row = [("FullName", Val.vStr "Rid Lomba"), ("id", Val.vNum 4)]) ↔
      ∃ p ∈ ([("FullName", Val.vStr "Rid Lomba"), ("id", Val.vNum 4)] : Rec),
        fieldDiffers demoMappings p.1 p.2
          [("FullName", Val.vStr "Rid Lomba"), ("id", Val.vNum 4)]
          [("id", Val.vNum 4), ("FullName", Val.vStr "Fids Almo")] = true) ∧
    (∀ u ∈ demoChanges.updated,
      u.row = [("FullName", Val.vStr "Rid Lomba"), ("id", Val.vNum 4)] →
      ∀ dl : Delta, dl ∈ u.fields ↔
        ∃ p ∈ ([("FullName", Val.vStr "Rid Lomba"), ("id", Val.vNum 4)] : Rec),
          p.1 = dl.fieldName ∧ p.2 = dl.newValue ∧
          dl.oldValue = getField
            [("id", Val.vNum 4), ("FullName", Val.vStr "Fids Almo")] p.1 ∧
          fieldDiffers demoMappings p.1 p.2
            [("FullName", Val.vStr "Rid Lomba"), ("id", Val.vNum 4)]
            [("id", Val.vNum 4), ("FullName", Val.vStr "Fids Almo")] = true) :=
  C3_update_deltas demoMappings demoSrc demoDst demoMapped demoChanges
    [("FullName", Val.vStr "Rid Lomba"), ("id", Val.vNum 4)]
    [("id", Val.vNum 4), ("FullName", Val.vStr "Fids Almo")]
    (by rfl) (by rfl) (by decide) (by rfl)

/-- C4 counterexample: all three callbacks are supplied, but because the
change lists of this configuration are empty, `sync` leaves every result
slot `null` (the source only assigns a slot when `funcs.length > 0`),
contradicting "null iff the corresponding callback was not supplied". -/
theorem C4_sync_slots_counterexample :
    demoFns.insertFn.isSome = true ∧ demoFns.deleteFn.isSome = true ∧
    demoFns.updateFn.isSome = true ∧
    getChanges noopMappings noopSrc noopDst = .ok ⟨[], [], []⟩ ∧
    sync noopMappings noopSrc noopDst demoFns = .ok ⟨none, none, none⟩ :=
  ⟨rfl, rfl, rfl, rfl, rfl⟩

/-- C4 (amended): a result slot is `null` iff the corresponding callback
was not supplied or the corresponding change list is empty; a non-`null`
slot is the ordered list of the callback's per-record results, positionally
aligned with the change list (overrides merged into the row for inserts,
the raw destination row for deletes, the mapped row plus delta list for
updates). -/
theorem C4_sync_result_shape (mappings : List Mapping) (src dst : List Rec)
    (fns : SyncFns) (cs : ChangeSet) (res : SyncResult)
    (hc : getChanges mappings src dst = .ok cs)
    (hs : sync mappings src dst fns = .ok res) :
    (res.inserts = none ↔ (fns.insertFn = none ∨ cs.inserted = [])) ∧
    (∀ l, res.inserts = some l → ∃ f, fns.insertFn = some f ∧
      l.length = cs.inserted.length ∧
      ∀ i, l.get? i = (cs.inserted.get? i).map
        (fun e => f (mergeOverrides e.row (e.overrides.getD [])))) ∧
    (res.deletes = none ↔ (fns.deleteFn = none ∨ cs.deleted = [])) ∧
    (∀ l, res.deletes = some l → ∃ f, fns.deleteFn = some f ∧
      l.length = cs.deleted.length ∧
      ∀ i, l.get? i = (cs.deleted.get? i).map f) ∧
    (res.updates = none ↔ (fns.updateFn = none ∨ cs.updated = [])) ∧
    (∀ l, res.updates = some l → ∃ f, fns.updateFn = some f ∧
      l.length = cs.updated.length ∧
      ∀ i, l.get? i = (cs.updated.get? i).map (fun u => f u.row u.fields)) := by
  unfold sync at hs
  rw [hc] at hs
  have hres : res = syncApply fns cs :=
    ((Option.some.injEq _ _).mp (congrArg Except.toOption hs)).symm
  subst hres
  refine ⟨?_, ?_, ?_, ?_, ?_, ?_⟩
  · cases hf : fns.insertFn with
    | none => simp [syncApply, hf]
    | some f =>
      cases hins : cs.inserted with
      | nil => simp [syncApply, hf, hins]
      | cons a t => simp [syncApply, hf, hins]
  · intro l hl
    cases hf : fns.insertFn with
    | none => rw [syncApply, hf] at hl; exact absurd hl (by simp)
    | some f =>
      refine ⟨f, rfl, ?_, ?_⟩ <;>
      · rw [syncApply, hf] at hl
        simp only at hl
        by_cases hlen : (cs.inserted.map
            (fun e => f (mergeOverrides e.row (e.overrides.getD [])))).length > 0
        · rw [if_pos hlen] at hl
          have hll := (Option.some.injEq _ _).mp hl
          subst hll
          first
          | exact List.length_map _ _
          | intro i; exact List.get?_map _ _ _
        · rw [if_neg hlen] at hl
          exact absurd hl (by simp)
  · cases hf : fns.deleteFn with
    | none => simp [syncApply, hf]
    | some f =>
      cases hdel : cs.deleted with
      | nil => simp [syncApply, hf, hdel]
      | cons a t => simp [syncApply, hf, hdel]
  · intro l hl
    cases hf : fns.deleteFn with
    | none => rw [syncApply, hf] at hl; exact absurd hl (by simp)
    | some f =>
      refine ⟨f, rfl, ?_, ?_⟩ <;>
      · rw [syncApply, hf] at hl
        simp only at hl
        by_cases hlen : (cs.deleted.map f).length > 0
        · rw [if_pos hlen] at hl
          have hll := (Option.some.injEq _ _).mp hl
          subst hll
          first
          | exact List.length_map _ _
          | intro i; exact List.get?_map _ _ _
        · rw [if_neg hlen] at hl
          exact absurd hl (by simp)
  · cases hf : fns.updateFn with
    | none => simp [syncApply, hf]
    | some f =>
      cases hupd : cs.updated with
      | nil => simp [syncApply, hf, hupd]
      | cons a t => simp [syncApply, hf, hupd]
  · intro l hl
    cases hf : fns.updateFn with
    | none => rw [syncApply, hf] at hl; exact absurd hl (by simp)
    | some f =>
      refine ⟨f, rfl, ?_, ?_⟩ <;>
      · rw [syncApply, hf] at hl
        simp only at hl
        by_cases hlen : (cs.updated.map (fun u => f u.row u.fields)).length > 0
        · rw [if_pos hlen] at hl
          have hll := (Option.some.injEq _ _).mp hl
          subst hll
          first
          | exact List.length_map _ _
          | intro i; exact List.get?_map _ _ _
        · rw [if_neg hlen] at hl
          exact absurd hl (by simp)

/-- Closed instance of the amended C4 on the README example, where all
three change lists are non-empty and all three callbacks are supplied. -/
theorem C4_sync_result_shape_witness :
    (SyncResult.inserts ⟨some [Val.vNum 2], some [Val.vNum 3], some [Val.vNum 4]⟩ = none ↔
      (demoFns.insertFn = none ∨ demoChanges.inserted = [])) ∧
    (∀ l, SyncResult.inserts ⟨some [Val.vNum 2], some [Val.vNum 3], some [Val.vNum 4]⟩ = some l →
      ∃ f, demoFns.insertFn = some f ∧
      l.length = demoChanges.inserted.length ∧
      ∀ i, l.get? i = (demoChanges.inserted.get? i).map
        (fun e => f (mergeOverrides e.row (e.overrides.getD [])))) ∧
    (SyncResult.deletes ⟨some [Val.vNum 2], some [Val.vNum 3], some [Val.vNum 4]⟩ = none ↔
      (demoFns.deleteFn = none ∨ demoChanges.deleted = [])) ∧
    (∀ l, SyncResult.deletes ⟨some [Val.vNum 2], some [Val.vNum 3], some [Val.vNum 4]⟩ = some l →
      ∃ f, demoFns.deleteFn = some f ∧
      l.length = demoChanges.deleted.length ∧
      ∀ i, l.get? i = (demoChanges.deleted.get? i).map f) ∧
    (SyncResult.updates ⟨some [Val.vNum 2], some [Val.vNum 3], some [Val.vNum 4]⟩ = none ↔
      (demoFns.updateFn = none ∨ demoChanges.updated = [])) ∧
    (∀ l, SyncResult.updates ⟨some [Val.vNum 2], some [Val.vNum 3], some [Val.vNum 4]⟩ = some l →
      ∃ f, demoFns.updateFn = some f ∧
      l.length = demoChanges.updated.length ∧
      ∀ i, l.get? i = (demoChanges.updated.get? i).map (fun u => f u.row u.fields)) :=
  C4_sync_result_shape demoMappings demoSrc demoDst demoFns demoChanges
    ⟨some [Val.vNum 2], some [Val.vNum 3], some [Val.vNum 4]⟩
    (by rfl) (by rfl)

/-- C5 counterexample: in the final engine's `getChanges` the default
comparison is strict (reference) equality, not shallow equality.  The
mapped `bio` object and the destination `bio` object are distinct objects
(identities 1 and 2) whose one-level members are all equal — `part_002`'s
`_shallowEqual` even accepts the pair — yet `getChanges` emits a delta
for `bio`, contradicting the claim that such a field produces no delta. -/
theorem C5_shallow_default_counterexample :
    SyncEngineV2.shallowEqual (.vObj 1 [("age", .pNum 30)])
      (.vObj 2 [("age", .pNum 30)]) = true ∧
    (1 : Nat) ≠ 2 ∧
    getChanges nestedMappings nestedSrc nestedDst =
      .ok ⟨[], [],
        [⟨[("id", .vNum 1), ("bio", .vObj 1 [("age", .pNum 30)])], none,
          [⟨"bio", .vObj 2 [("age", .pNum 30)],
            .vObj 1 [("age", .pNum 30)]⟩]⟩]⟩ :=
  ⟨rfl, by decide, rfl⟩

theorem shallowEqual_typeofObj {a b : Val}
    (h : SyncEngineV2.shallowEqual a b = true) :
    SyncEngineV2.typeofObj a = true ∧ SyncEngineV2.typeofObj b = true := by
  unfold SyncEngineV2.shallowEqual at h
  split at h
  · next hg =>
    simp only [Bool.and_eq_true] at hg
    exact hg
  · exact absurd h (by simp)

theorem mem_fieldDeltas2 {s d : Rec} {dl : Delta} :
    dl ∈ SyncEngineV2.fieldDeltas2 s d ↔
      ∃ p ∈ s, SyncEngineV2.fieldDiffers2 p.1 p.2 d = true ∧
        dl = ⟨p.1, getField d p.1, p.2⟩ := by
  unfold SyncEngineV2.fieldDeltas2
  rw [List.mem_filterMap]
  constructor
  · rintro ⟨p, hp, hsome⟩
    by_cases hdiff : SyncEngineV2.fieldDiffers2 p.1 p.2 d = true
    · rw [if_pos hdiff] at hsome
      exact ⟨p, hp, hdiff, ((Option.some.injEq _ _).mp hsome).symm⟩
    · rw [if_neg hdiff] at hsome
      exact absurd hsome (by simp)
  · rintro ⟨p, hp, hdiff, rfl⟩
    exact ⟨p, hp, by rw [if_pos hdiff]⟩

theorem updEntry2_fields {keys : List String} {dst : List Rec} {s : Rec}
    {u : SyncEngineV2.UpdatedEntry2}
    (h : SyncEngineV2.updEntry2 keys dst s = some u) :
    ∃ d, dst.find? (fun r => keyOf keys r == keyOf keys s) = some d ∧
      u.row = s ∧ u.fields = SyncEngineV2.fieldDeltas2 s d := by
  unfold SyncEngineV2.updEntry2 at h
  cases hfind : dst.find? (fun r => keyOf keys r == keyOf keys s) with
  | none => rw [hfind] at h; exact absurd h (by simp)
  | some d =>
    rw [hfind] at h
    simp only at h
    by_cases hfs : (SyncEngineV2.fieldDeltas2 s d).length > 0
    · rw [if_pos hfs] at h
      have hu := (Option.some.injEq _ _).mp h
      exact ⟨d, rfl, by rw [← hu], by rw [← hu]⟩
    · rw [if_neg hfs] at h
      exact absurd h (by simp)

/-- C5 (amended): the shallow default comparison for structured values
belongs to the earlier engine version (part_002).  There, for every
matched pair, a field whose value is shallow-equal to the destination's
same-named value (all one-level members equal) contributes no delta to
any `updated` entry, even when the two values are distinct objects; in
the final engine (part_003) the default comparison is strict reference
equality and such a field does produce a delta unless the mapping
declares a `compareFn` (see the counterexample). -/
theorem C5_shallow_default_v2 (K : List String) (mapped dst : List Rec)
    (k : String) (u : SyncEngineV2.UpdatedEntry2) (d : Rec)
    (hu : u ∈ SyncEngineV2.updatedOf2 K mapped dst)
    (hd : dst.find? (fun r => keyOf K r == keyOf K u.row) = some d)
    (h : ∀ p ∈ u.row, p.1 = k →
      SyncEngineV2.shallowEqual p.2 (getField d k) = true) :
    ∀ dl ∈ u.fields, dl.fieldName ≠ k := by
  intro dl hdl hname
  obtain ⟨s, hs, hent⟩ := List.mem_filterMap.mp hu
  obtain ⟨d', hfind, hrow, hfields⟩ := updEntry2_fields hent
  rw [hrow] at hd h
  have hdd : d' = d := by
    rw [hd] at hfind
    exact ((Option.some.injEq _ _).mp hfind).symm
  rw [hdd] at hfields
  rw [hfields] at hdl
  obtain ⟨p, hp, hdiff, hval⟩ := mem_fieldDeltas2.mp hdl
  have hpk : p.1 = k := by rw [hval] at hname; exact hname
  have hsh : SyncEngineV2.shallowEqual p.2 (getField d k) = true :=
    h p hp hpk
  have hobj : SyncEngineV2.typeofObj p.2 = true := (shallowEqual_typeofObj hsh).1
  unfold SyncEngineV2.fieldDiffers2 at hdiff
  rw [hpk] at hdiff
  by_cases hjs : jsEq (getField d k) p.2 = true
  · rw [if_pos hjs] at hdiff
    exact absurd hdiff (by simp)
  · rw [if_neg hjs, if_pos hobj, hsh] at hdiff
    exact absurd hdiff (by simp)

/-- Closed instance of the amended C5: the single updated entry's row is
matched with the first key-matching destination row, their `bio` objects
are distinct (identities 1 and 2) with equal one-level members, the
`name` field differs, and the entry carries no `bio` delta. -/
theorem C5_shallow_default_v2_witness :
    (⟨[("id", Val.vNum 1), ("name", Val.vStr "a"),
        ("bio", Val.vObj 1 [("age", Prim.pNum 30)])],
      [⟨"name", Val.vStr "b", Val.vStr "a"⟩]⟩ : SyncEngineV2.UpdatedEntry2) ∈
      SyncEngineV2.updatedOf2 ["id"]
        [[("id", Val.vNum 1), ("name", Val.vStr "a"),
          ("bio", Val.vObj 1 [("age", Prim.pNum 30)])]]
        [[("id", Val.vNum 1), ("name", Val.vStr "b"),
          ("bio", Val.vObj 2 [("age", Prim.pNum 30)])]] ∧
    List.find? (fun r => keyOf ["id"] r ==
        keyOf ["id"] [("id", Val.vNum 1), ("name", Val.vStr "a"),
          ("bio", Val.vObj 1 [("age", Prim.pNum 30)])])
      [[("id", Val.vNum 1), ("name", Val.vStr "b"),
        ("bio", Val.vObj 2 [("age", Prim.pNum 30)])]] =
      some [("id", Val.vNum 1), ("name", Val.vStr "b"),
        ("bio", Val.vObj 2 [("age", Prim.pNum 30)])] ∧
    (∀ p ∈ ([("id", Val.vNum 1), ("name", Val.vStr "a"),
        ("bio", Val.vObj 1 [("age", Prim.pNum 30)])] : Rec),
      p.1 = "bio" →
      SyncEngineV2.shallowEqual p.2
        (getField [("id", Val.vNum 1), ("name", Val.vStr "b"),
          ("bio", Val.vObj 2 [("age", Prim.pNum 30)])] "bio") = true) ∧
    (∀ dl ∈ ([⟨"name", Val.vStr "b", Val.vStr "a"⟩] : List Delta),
      dl.fieldName ≠ "bio") :=
  ⟨by decide, by rfl, by decide,
   C5_shallow_default_v2 ["id"]
    [[("id", Val.vNum 1), ("name", Val.vStr "a"),
      ("bio", Val.vObj 1 [("age", Prim.pNum 30)])]]
    [[("id", Val.vNum 1), ("name", Val.vStr "b"),
      ("bio", Val.vObj 2 [("age", Prim.pNum 30)])]]
    "bio"
    ⟨[("id", Val.vNum 1), ("name", Val.vStr "a"),
        ("bio", Val.vObj 1 [("age", Prim.pNum 30)])],
      [⟨"name", Val.vStr "b", Val.vStr "a"⟩]⟩
    [("id", Val.vNum 1), ("name", Val.vStr "b"),
      ("bio", Val.vObj 2 [("age", Prim.pNum 30)])]
    (by decide) (by rfl) (by decide)⟩

theorem getField_setField_self (r : Rec) (k : String) (v : Val) :
    getField (setField r k v) k = v := by
  induction r with
  | nil => simp [setField, getField, List.find?]
  | cons p rest ih =>
    by_cases h : p.1 == k
    · simp [setField, h, getField, List.find?]
    · simpa [setField, h, getField, List.find?] using ih

theorem getField_setField_ne (r : Rec) (k k2 : String) (v : Val)
    (h : k2 ≠ k) :
    getField (setField r k v) k2 = getField r k2 := by
  have hk : (k == k2) = false := by
    simp only [beq_eq_false_iff_ne, ne_eq]
    exact fun he => h he.symm
  induction r with
  | nil => simp [setField, getField, List.find?, hk]
  | cons p rest ih =>
    by_cases hp : p.1 == k
    · have hp2 : (p.1 == k2) = false := by
        have : p.1 = k := by simpa using hp
        rw [this]
        exact hk
      simp [setField, hp, getField, List.find?, hk, hp2]
    · by_cases hq : p.1 == k2
      · simp [setField, hp, getField, List.find?, hq]
      · simpa [setField, hp, getField, List.find?, hq] using ih

/-- C6 counterexample: a `null` key-field value joins into the composite
key as the empty string (`Array.prototype.join` renders `null` and
`undefined` as `""`), so a record whose key field is `null` gets key `""`,
while a record whose key field is the string `"null"` gets key `"null"` —
the two keys differ, contradicting the claimed collision. -/
theorem C6_null_key_counterexample :
    keyOf ["id"] [("id", .vNull)] = "" ∧
    keyOf ["id"] [("id", .vStr "null")] = "null" ∧
    keyOf ["id"] [("id", .vNull)] ≠ keyOf ["id"] [("id", .vStr "null")] :=
  ⟨rfl, rfl, by decide⟩

/-- C6 (amended): a `null` or `undefined` key-field value participates in
the composite key as the empty-string token, so a record whose key field
holds `null` (or `undefined`) produces the same key as a record whose key
field holds the empty string `""` — distinguishable only by caller
discipline, not by the engine. -/
theorem C6_null_key_token (keys : List String) (r : Rec) (k : String) :
    keyOf keys (setField r k .vNull) = keyOf keys (setField r k (.vStr "")) ∧
    keyOf keys (setField r k .vUndefined) =
      keyOf keys (setField r k (.vStr "")) := by
  constructor
  · have hfun : (fun k2 => joinStr (getField (setField r k .vNull) k2)) =
        (fun k2 => joinStr (getField (setField r k (.vStr "")) k2)) := by
      funext k2
      by_cases h : k2 = k
      · subst h
        rw [getField_setField_self, getField_setField_self]
        rfl
      · rw [getField_setField_ne _ _ _ _ h, getField_setField_ne _ _ _ _ h]
    unfold keyOf
    rw [hfun]
  · have hfun : (fun k2 => joinStr (getField (setField r k .vUndefined) k2)) =
        (fun k2 => joinStr (getField (setField r k (.vStr "")) k2)) := by
      funext k2
      by_cases h : k2 = k
      · subst h
        rw [getField_setField_self, getField_setField_self]
        rfl
      · rw [getField_setField_ne _ _ _ _ h, getField_setField_ne _ _ _ _ h]
    unfold keyOf
    rw [hfun]

theorem keysOf_congr {ms1 ms2 : List Mapping}
    (h : List.Forall₂ sameModuloOverrides ms1 ms2) :
    keysOf ms1 = keysOf ms2 := by
  induction h with
  | nil => rfl
  | @cons a b l1 l2 hab htl ih =>
    obtain ⟨hdst, hkey, -, -⟩ := hab
    unfold keysOf at ih ⊢
    simp only [List.filter_cons]
    rw [hkey]
    by_cases hb : b.isKey = true
    · simp only [hb, if_true, List.map_cons, hdst, ih]
    · simp [hb, ih]

theorem applyMapping_congr {m1 m2 : Mapping}
    (h : sameModuloOverrides m1 m2) (r : Rec) :
    applyMapping m1 r = applyMapping m2 r := by
  unfold applyMapping
  rw [h.2.2.2]

theorem mapRowGo_congr {ms1 ms2 : List Mapping}
    (h : List.Forall₂ sameModuloOverrides ms1 ms2) (r : Rec) :
    ∀ acc, mapRowGo r ms1 acc = mapRowGo r ms2 acc := by
  induction h with
  | nil => intro acc; rfl
  | @cons a b l1 l2 hab htl ih =>
    intro acc
    unfold mapRowGo
    rw [applyMapping_congr hab, hab.1]
    cases applyMapping b r with
    | error e => rfl
    | ok v => exact ih _

theorem mapFields_congr {ms1 ms2 : List Mapping}
    (h : List.Forall₂ sameModuloOverrides ms1 ms2) (src : List Rec) :
    mapFields ms1 src = mapFields ms2 src := by
  induction src with
  | nil => rfl
  | cons r rs ih =>
    unfold mapFields
    unfold mapRow
    rw [mapRowGo_congr h r, ih]

theorem compareLookup_congr {ms1 ms2 : List Mapping}
    (h : List.Forall₂ sameModuloOverrides ms1 ms2) (k : String) :
    compareLookup ms1 k = compareLookup ms2 k := by
  induction h with
  | nil => rfl
  | @cons a b l1 l2 hab htl ih =>
    obtain ⟨hdst, -, hcmp, -⟩ := hab
    unfold compareLookup at ih ⊢
    have hpred : (a.compareFn.isSome && a.dstField == k) =
        (b.compareFn.isSome && b.dstField == k) := by rw [hcmp, hdst]
    cases hb : (b.compareFn.isSome && b.dstField == k) with
    | true =>
      have hfa : List.find?
          (fun m => m.compareFn.isSome && m.dstField == k) (a :: l1) =
          some a := by
        apply List.find?_cons_of_pos
        show (a.compareFn.isSome && a.dstField == k) = true
        rw [hpred]
        exact hb
      have hfb : List.find?
          (fun m => m.compareFn.isSome && m.dstField == k) (b :: l2) =
          some b := by
        apply List.find?_cons_of_pos
        exact hb
      rw [hfa, hfb]
      exact hcmp
    | false =>
      have hfa : List.find?
          (fun m => m.compareFn.isSome && m.dstField == k) (a :: l1) =
          List.find? (fun m => m.compareFn.isSome && m.dstField == k) l1 := by
        apply List.find?_cons_of_neg
        simp [hpred, hb]
      have hfb : List.find?
          (fun m => m.compareFn.isSome && m.dstField == k) (b :: l2) =
          List.find? (fun m => m.compareFn.isSome && m.dstField == k) l2 := by
        apply List.find?_cons_of_neg
        simp [hb]
      rw [hfa, hfb]
      exact ih

theorem fieldDiffers_congr {ms1 ms2 : List Mapping}
    (h : List.Forall₂ sameModuloOverrides ms1 ms2) (k : String) (v : Val)
    (s d : Rec) :
    fieldDiffers ms1 k v s d = fieldDiffers ms2 k v s d := by
  unfold fieldDiffers
  rw [compareLookup_congr h]

theorem filterMap_map_proj {α β γ : Type} (f g : α → Option β)
    (proj : β → γ)
    (h : ∀ a, Option.map proj (f a) = Option.map proj (g a)) (l : List α) :
    (l.filterMap f).map proj = (l.filterMap g).map proj := by
  induction l with
  | nil => rfl
  | cons a t ih =>
    rw [List.filterMap_cons, List.filterMap_cons]
    cases hf : f a with
    | none =>
      cases hg : g a with
      | none => exact ih
      | some b =>
        have hab := h a
        rw [hf, hg] at hab
        exact absurd hab (by simp)
    | some b =>
      cases hg : g a with
      | none =>
        have hab := h a
        rw [hf, hg] at hab
        exact absurd hab (by simp)
      | some c =>
        have hab := h a
        rw [hf, hg] at hab
        simp only [Option.map_some'] at hab
        rw [List.map_cons, List.map_cons, ih]
        congr 1
        exact (Option.some.injEq _ _).mp hab

theorem fieldDeltas_congr {ms1 ms2 : List Mapping}
    (h : List.Forall₂ sameModuloOverrides ms1 ms2) (s d : Rec) :
    fieldDeltas ms1 s d = fieldDeltas ms2 s d := by
  unfold fieldDeltas
  have hfun : (fun p : String × Val =>
      if fieldDiffers ms1 p.1 p.2 s d then
        some (⟨p.1, getField d p.1, p.2⟩ : Delta)
      else none) =
      (fun p : String × Val =>
      if fieldDiffers ms2 p.1 p.2 s d then
        some (⟨p.1, getField d p.1, p.2⟩ : Delta)
      else none) := by
    funext p
    rw [fieldDiffers_congr h]
  rw [hfun]

theorem updEntry_proj_congr {ms1 ms2 : List Mapping}
    (h : List.Forall₂ sameModuloOverrides ms1 ms2) (K : List String)
    (dst : List Rec) (s : Rec) :
    Option.map (fun u : UpdatedEntry => (u.row, u.fields))
      (updEntry ms1 K dst s) =
    Option.map (fun u : UpdatedEntry => (u.row, u.fields))
      (updEntry ms2 K dst s) := by
  unfold updEntry
  cases hfind : dst.find? (fun d => keyOf K d == keyOf K s) with
  | none => rfl
  | some d =>
    simp only
    rw [fieldDeltas_congr h]
    by_cases hfs : (fieldDeltas ms2 s d).length > 0
    · rw [if_pos (Or.inl hfs), if_pos (Or.inl hfs)]
      rfl
    · rw [if_neg (by tauto), if_neg (by tauto)]

theorem updatedOf_proj_congr {ms1 ms2 : List Mapping}
    (h : List.Forall₂ sameModuloOverrides ms1 ms2) (K : List String)
    (mapped dst : List Rec) :
    (updatedOf ms1 K mapped dst).map (fun u => (u.row, u.fields)) =
    (updatedOf ms2 K mapped dst).map (fun u => (u.row, u.fields)) := by
  unfold updatedOf
  exact filterMap_map_proj _ _ _ (fun s => updEntry_proj_congr h K dst s) mapped

/-- C7: two engine configurations identical except for their
`insertVal`/`updateVal` override generators produce the same mapped data,
agree on success or failure of `getChanges`, and on success produce
identical `deleted` lists, identical `inserted` rows and identical
`updated` rows and `fields` delta lists — override-computed values can
only surface in the `overrides` attachments, never in the diff itself. -/
theorem C7_override_noninterference (ms1 ms2 : List Mapping)
    (h : List.Forall₂ sameModuloOverrides ms1 ms2) (src dst : List Rec) :
    mapFields ms1 src = mapFields ms2 src ∧
    (∀ e, getChanges ms1 src dst = .error e ↔
      getChanges ms2 src dst = .error e) ∧
    (∀ cs1 cs2, getChanges ms1 src dst = .ok cs1 →
      getChanges ms2 src dst = .ok cs2 →
      cs1.deleted = cs2.deleted ∧
      cs1.inserted.map (fun e => e.row) =
        cs2.inserted.map (fun e => e.row) ∧
      cs1.updated.map (fun u => (u.row, u.fields)) =
        cs2.updated.map (fun u => (u.row, u.fields))) := by
  have hmf := mapFields_congr h src
  refine ⟨hmf, ?_, ?_⟩
  · intro e
    unfold getChanges
    rw [hmf]
    cases mapFields ms2 src <;> simp
  · intro cs1 cs2 h1 h2
    unfold getChanges at h1 h2
    rw [hmf] at h1
    cases hm2 : mapFields ms2 src with
    | error e =>
      rw [hm2] at h1
      exact absurd h1 (by simp)
    | ok mapped =>
      rw [hm2] at h1 h2
      simp only at h1 h2
      have e1 : (⟨insertedOf ms1 (keysOf ms1) mapped dst,
          deletedOf (keysOf ms1) mapped dst,
          updatedOf ms1 (keysOf ms1) mapped dst⟩ : ChangeSet) = cs1 :=
        (Option.some.injEq _ _).mp (congrArg Except.toOption h1)
      have e2 : (⟨insertedOf ms2 (keysOf ms2) mapped dst,
          deletedOf (keysOf ms2) mapped dst,
          updatedOf ms2 (keysOf ms2) mapped dst⟩ : ChangeSet) = cs2 :=
        (Option.some.injEq _ _).mp (congrArg Except.toOption h2)
      rw [← e1, ← e2]
      have hK := keysOf_congr h
      refine ⟨?_, ?_, ?_⟩
      · simp only
        rw [hK]
      · simp only
        rw [insertedOf_map_row, insertedOf_map_row, hK]
      · simp only
        rw [hK, updatedOf_proj_congr h]

/-- Closed instance of C7: the README mappings with and without
`insertVal`/`updateVal` overrides on `FullName`. -/
theorem C7_override_noninterference_witness :
    mapFields demoMappings demoSrc = mapFields demoMappingsOv demoSrc ∧
    (∀ e, getChanges demoMappings demoSrc demoDst = .error e ↔
      getChanges demoMappingsOv demoSrc demoDst = .error e) ∧
    (∀ cs1 cs2, getChanges demoMappings demoSrc demoDst = .ok cs1 →
      getChanges demoMappingsOv demoSrc demoDst = .ok cs2 →
      cs1.deleted = cs2.deleted ∧
      cs1.inserted.map (fun e => e.row) =
        cs2.inserted.map (fun e => e.row) ∧
      cs1.updated.map (fun u => (u.row, u.fields)) =
        cs2.updated.map (fun u => (u.row, u.fields))) :=
  C7_override_noninterference demoMappings demoMappingsOv
    (List.Forall₂.cons ⟨rfl, rfl, rfl, rfl⟩
      (List.Forall₂.cons ⟨rfl, rfl, rfl, rfl⟩ List.Forall₂.nil))
    demoSrc demoDst

theorem mapRowGo_error {mappings : List Mapping} {r : Rec} {m : Mapping}
    {e : String} (hm : m ∈ mappings) (he : applyMapping m r = .error e) :
    ∀ acc, ∃ e2, mapRowGo r mappings acc = .error e2 := by
  induction mappings with
  | nil => cases hm
  | cons a t ih =>
    intro acc
    cases List.mem_cons.mp hm with
    | inl heq =>
      subst heq
      unfold mapRowGo
      rw [he]
      exact ⟨e, rfl⟩
    | inr htail =>
      unfold mapRowGo
      cases ha : applyMapping a r with
      | error e2 => exact ⟨e2, rfl⟩
      | ok v => exact ih htail _

theorem mapFields_error {mappings : List Mapping} {src : List Rec} {r : Rec}
    (hr : r ∈ src) (he : ∃ e, mapRow mappings r = .error e) :
    ∃ e2, mapFields mappings src = .error e2 := by
  induction src with
  | nil => cases hr
  | cons a t ih =>
    cases List.mem_cons.mp hr with
    | inl heq =>
      subst heq
      obtain ⟨e, he⟩ := he
      unfold mapFields
      rw [he]
      exact ⟨e, rfl⟩
    | inr htail =>
      unfold mapFields
      cases ha : mapRow mappings a with
      | error e2 => exact ⟨e2, rfl⟩
      | ok v =>
        obtain ⟨e2, h2⟩ := ih htail
        rw [h2]
        exact ⟨e2, rfl⟩

/-- C8: if any mapping's compute function throws while projecting some
source row, `mapFields` — and the `getChanges` call that invoked it —
propagates an error to the caller and yields no partial result: neither
call returns an `ok` value. -/
theorem C8_mapping_failure_aborts (mappings : List Mapping)
    (src dst : List Rec) (r : Rec) (m : Mapping) (e : String)
    (hr : r ∈ src) (hm : m ∈ mappings)
    (he : applyMapping m r = .error e) :
    ∃ e2, mapFields mappings src = .error e2 ∧
      getChanges mappings src dst = .error e2 ∧
      (∀ rows, mapFields mappings src ≠ .ok rows) ∧
      (∀ cs, getChanges mappings src dst ≠ .ok cs) := by
  have hrow : ∃ e2, mapRow mappings r = .error e2 := mapRowGo_error hm he []
  obtain ⟨e2, h2⟩ := mapFields_error hr hrow
  refine ⟨e2, h2, ?_, ?_, ?_⟩
  · unfold getChanges
    rw [h2]
  · intro rows hro
    rw [h2] at hro
    exact absurd hro (by simp)
  · intro cs hc
    unfold getChanges at hc
    rw [h2] at hc
    exact absurd hc (by simp)

/-- C9: when the mapped dataset equals the destination dataset (same
records keyed identically) and every field compares equal under the
applicable comparison against the first key-matching row, `getChanges`
returns a change set whose `inserted`, `deleted` and `updated` lists are
all empty. -/
theorem C9_noop_idempotence (mappings : List Mapping) (src dst : List Rec)
    (hm : mapFields mappings src = .ok dst)
    (hclean : selfClean mappings dst = true) :
    getChanges mappings src dst = .ok ⟨[], [], []⟩ := by
  rw [getChanges_ok dst hm]
  unfold selfClean at hclean
  have hfil : dst.filter (fun d => !(dst.any (fun s =>
      keyOf (keysOf mappings) s == keyOf (keysOf mappings) d))) = [] := by
    apply List.filter_eq_nil.mpr
    intro d hd
    have hany : dst.any (fun s =>
        keyOf (keysOf mappings) s == keyOf (keysOf mappings) d) = true :=
      List.any_eq_true.mpr ⟨d, hd, by simp⟩
    simp [hany]
  have hdel : deletedOf (keysOf mappings) dst dst = [] := hfil
  have hins : insertedOf mappings (keysOf mappings) dst dst = [] := by
    unfold insertedOf
    rw [hfil]
    rfl
  have hupd : updatedOf mappings (keysOf mappings) dst dst = [] := by
    apply List.filterMap_eq_nil.mpr
    intro s hs
    have hall := List.all_eq_true.mp hclean s hs
    unfold updEntry
    cases hfind : dst.find? (fun d =>
        keyOf (keysOf mappings) d == keyOf (keysOf mappings) s) with
    | none => rfl
    | some d =>
      rw [hfind] at hall
      simp only [Option.all_some] at hall
      have hfs : fieldDeltas mappings s d = [] := by
        apply List.filterMap_eq_nil.mpr
        intro p hp
        have hpd := List.all_eq_true.mp hall p hp
        simp only [Bool.not_eq_true'] at hpd
        simp [hpd]
      simp only
      rw [if_neg (by rw [hfs]; simp)]
  rw [hdel, hins, hupd]

/-- Closed instance of C9 on the already-agreeing configuration. -/
theorem C9_noop_idempotence_witness :
    mapFields noopMappings noopSrc = .ok noopDst ∧
    selfClean noopMappings noopDst = true ∧
    getChanges noopMappings noopSrc noopDst = .ok ⟨[], [], []⟩ :=
  ⟨by rfl, by rfl,
    C9_noop_idempotence noopMappings noopSrc noopDst (by rfl) (by rfl)⟩

theorem mem_insertTrace_isIns {fns : SyncFns} {cs : ChangeSet} :
    ∀ e ∈ insertTrace fns cs, e.isIns = true := by
  intro e he
  unfold insertTrace at he
  cases hf : fns.insertFn with
  | none =>
    rw [hf] at he
    exact absurd he (List.not_mem_nil _)
  | some f =>
    rw [hf] at he
    obtain ⟨x, hx, rfl⟩ := List.mem_map.mp he
    rfl

theorem mem_deleteTrace_isDel {fns : SyncFns} {cs : ChangeSet} :
    ∀ e ∈ deleteTrace fns cs, e.isDel = true := by
  intro e he
  unfold deleteTrace at he
  cases hf : fns.deleteFn with
  | none =>
    rw [hf] at he
    exact absurd he (List.not_mem_nil _)
  | some f =>
    rw [hf] at he
    obtain ⟨x, hx, rfl⟩ := List.mem_map.mp he
    rfl

theorem mem_updateTrace_isUpd {fns : SyncFns} {cs : ChangeSet} :
    ∀ e ∈ updateTrace fns cs, e.isUpd = true := by
  intro e he
  unfold updateTrace at he
  cases hf : fns.updateFn with
  | none =>
    rw [hf] at he
    exact absurd he (List.not_mem_nil _)
  | some f =>
    rw [hf] at he
    obtain ⟨x, hx, rfl⟩ := List.mem_map.mp he
    rfl

theorem append_ordered {α : Type} (P Q : α → Bool) (L1 L2 : List α)
    (hP : ∀ a ∈ L2, P a = false) (hQ : ∀ a ∈ L1, Q a = false)
    {i j : Nat} {e1 e2 : α}
    (h1 : (L1 ++ L2).get? i = some e1) (h2 : (L1 ++ L2).get? j = some e2)
    (hp : P e1 = true) (hq : Q e2 = true) : i < j := by
  have hi : i < L1.length := by
    by_contra hge
    push_neg at hge
    rw [List.get?_append_right hge] at h1
    have : e1 ∈ L2 := List.get?_mem h1
    rw [hP e1 this] at hp
    exact absurd hp (by simp)
  have hj : L1.length ≤ j := by
    by_contra hlt
    push_neg at hlt
    rw [List.get?_append hlt] at h2
    have : e2 ∈ L1 := List.get?_mem h2
    rw [hQ e2 this] at hq
    exact absurd hq (by simp)
  omega

/-- C10: in the trace of one `sync` call, every insert-callback
invocation precedes every delete-callback invocation, and every
delete-callback invocation precedes every update-callback invocation —
the three categories run sequentially in the fixed order insert, delete,
update, each jointly awaited before the next begins. -/
theorem C10_sync_category_order (fns : SyncFns) (cs : ChangeSet)
    (i j : Nat) (e1 e2 : SyncEv)
    (h1 : (syncTrace fns cs).get? i = some e1)
    (h2 : (syncTrace fns cs).get? j = some e2) :
    (e1.isIns = true → e2.isDel = true → i < j) ∧
    (e1.isIns = true → e2.isUpd = true → i < j) ∧
    (e1.isDel = true → e2.isUpd = true → i < j) := by
  unfold syncTrace at h1 h2
  rw [List.append_assoc] at h1 h2
  refine ⟨?_, ?_, ?_⟩
  · intro hp hq
    refine append_ordered SyncEv.isIns SyncEv.isDel (insertTrace fns cs)
      (deleteTrace fns cs ++ updateTrace fns cs) ?_ ?_ h1 h2 hp hq
    · intro a ha
      cases List.mem_append.mp ha with
      | inl hd => have := mem_deleteTrace_isDel a hd; cases a <;> simp_all [SyncEv.isDel, SyncEv.isIns]
      | inr hu => have := mem_updateTrace_isUpd a hu; cases a <;> simp_all [SyncEv.isUpd, SyncEv.isIns]
    · intro a ha
      have := mem_insertTrace_isIns a ha
      cases a <;> simp_all [SyncEv.isIns, SyncEv.isDel]
  · intro hp hq
    refine append_ordered SyncEv.isIns SyncEv.isUpd (insertTrace fns cs)
      (deleteTrace fns cs ++ updateTrace fns cs) ?_ ?_ h1 h2 hp hq
    · intro a ha
      cases List.mem_append.mp ha with
      | inl hd => have := mem_deleteTrace_isDel a hd; cases a <;> simp_all [SyncEv.isDel, SyncEv.isIns]
      | inr hu => have := mem_updateTrace_isUpd a hu; cases a <;> simp_all [SyncEv.isUpd, SyncEv.isIns]
    · intro a ha
      have := mem_insertTrace_isIns a ha
      cases a <;> simp_all [SyncEv.isIns, SyncEv.isUpd]
  · intro hp hq
    rw [← List.append_assoc] at h1 h2
    refine append_ordered SyncEv.isDel SyncEv.isUpd
      (insertTrace fns cs ++ deleteTrace fns cs) (updateTrace fns cs)
      ?_ ?_ h1 h2 hp hq
    · intro a ha
      have := mem_updateTrace_isUpd a ha
      cases a <;> simp_all [SyncEv.isUpd, SyncEv.isDel]
    · intro a ha
      cases List.mem_append.mp ha with
      | inl hi => have := mem_insertTrace_isIns a hi; cases a <;> simp_all [SyncEv.isIns, SyncEv.isUpd]
      | inr hd => have := mem_deleteTrace_isDel a hd; cases a <;> simp_all [SyncEv.isDel, SyncEv.isUpd]

/-- Closed instance of C10 on the README example's trace (one insert,
one delete, one update event). -/
theorem C10_sync_category_order_witness :
    ((SyncEv.ins [("FullName", Val.vStr "Jane Diana"), ("id", Val.vNum 2)]).isIns = true →
      (SyncEv.del [("id", Val.vNum 3), ("FullName", Val.vStr "Doe Risko")]).isDel = true →
      0 < 1) ∧
    ((SyncEv.ins [("FullName", Val.vStr "Jane Diana"), ("id", Val.vNum 2)]).isIns = true →
      (SyncEv.del [("id", Val.vNum 3), ("FullName", Val.vStr "Doe Risko")]).isUpd = true →
      0 < 1) ∧
    ((SyncEv.ins [("FullName", Val.vStr "Jane Diana"), ("id", Val.vNum 2)]).isDel = true →
      (SyncEv.del [("id", Val.vNum 3), ("FullName", Val.vStr "Doe Risko")]).isUpd = true →
      0 < 1) :=
  C10_sync_category_order demoFns demoChanges 0 1
    (SyncEv.ins [("FullName", Val.vStr "Jane Diana"), ("id", Val.vNum 2)])
    (SyncEv.del [("id", Val.vNum 3), ("FullName", Val.vStr "Doe Risko")])
    (by rfl) (by rfl)

/-- Closed instance of C8 on the always-throwing mapping. -/
theorem C8_mapping_failure_aborts_witness :
    ∃ e2, mapFields failMappings failSrc = .error e2 ∧
      getChanges failMappings failSrc [] = .error e2 ∧
      (∀ rows, mapFields failMappings failSrc ≠ .ok rows) ∧
      (∀ cs, getChanges failMappings failSrc [] ≠ .ok cs) :=
  C8_mapping_failure_aborts failMappings failSrc [] ([] : Rec) failMapping
    "boom" (List.mem_cons_self _ _) (List.mem_cons_self _ _) rfl
